import Mathlib

/-!
Verification development for the ghe-reposec tool: a shallow embedding of
its repository filter, Lava scan summarisation, raw-result persistence,
client construction and output writing, with theorems about the claimed
properties of each.
-/

namespace Reposec

/-! ## Configuration records (internal/config/config.go) -/

/-- GitHub Enterprise configuration (`config.GHEConfig`), restricted to the
fields the client logic reads. -/
structure GHEConfig where
  Token : String
  BaseURL : String
  Concurrency : Int
  RepositorySizeLimit : Int
  IncludeArchived : Bool
  IncludeEmpty : Bool
  IncludeForks : Bool
  IncludeTemplates : Bool
  IncludeDisabled : Bool
  MinLastActivityDays : Int
deriving DecidableEq, Repr

/-- Lava configuration (`config.LavaConfig`). -/
structure LavaConfig where
  Token : String
  BaseURL : String
  Concurrency : Int
  BinaryPath : String
  CheckImage : String
  ResultsPath : String
deriving DecidableEq, Repr

/-! ## Repository metadata and the filter (github.go, orgRepositories) -/

/-- The GitHub repository metadata consulted by the filtering loop of
`orgRepositories`.  The go-github fields are pointers; `Option` models a
possibly-nil pointer.  Timestamps are abstract instants measured in days,
so that `time.Now().AddDate(0, 0, -d)` is modelled as `now - d`. -/
structure RepoMetadata where
  Size : Option Int
  Archived : Option Bool
  Disabled : Option Bool
  Fork : Option Bool
  IsTemplate : Option Bool
  UpdatedAt : Option Int
  PushedAt : Option Int
  CloneURL : String
deriving DecidableEq, Repr

/-- `repo.Size != nil && *repo.Size > c.cfg.RepositorySizeLimit`. -/
def tooBig (cfg : GHEConfig) (repo : RepoMetadata) : Bool :=
  match repo.Size with
  | some s => decide (cfg.RepositorySizeLimit < s)
  | none => false

/-- `(repo.Size != nil && *repo.Size == 0) && !c.cfg.IncludeEmpty`. -/
def emptyRepo (cfg : GHEConfig) (repo : RepoMetadata) : Bool :=
  (match repo.Size with
   | some s => decide (s = 0)
   | none => false) && !cfg.IncludeEmpty

/-- `(repo.Archived != nil && *repo.Archived) && !c.cfg.IncludeArchived`. -/
def archivedRepo (cfg : GHEConfig) (repo : RepoMetadata) : Bool :=
  (match repo.Archived with
   | some b => b
   | none => false) && !cfg.IncludeArchived

/-- `(repo.Disabled != nil && *repo.Disabled) && !c.cfg.IncludeDisabled`. -/
def disabledRepo (cfg : GHEConfig) (repo : RepoMetadata) : Bool :=
  (match repo.Disabled with
   | some b => b
   | none => false) && !cfg.IncludeDisabled

/-- `(repo.Fork != nil && *repo.Fork) && !c.cfg.IncludeForks`. -/
def forkRepo (cfg : GHEConfig) (repo : RepoMetadata) : Bool :=
  (match repo.Fork with
   | some b => b
   | none => false) && !cfg.IncludeForks

/-- `(repo.IsTemplate != nil && *repo.IsTemplate) && !c.cfg.IncludeTemplates`. -/
def templateRepo (cfg : GHEConfig) (repo : RepoMetadata) : Bool :=
  (match repo.IsTemplate with
   | some b => b
   | none => false) && !cfg.IncludeTemplates

/-- `repo.UpdatedAt != nil && repo.UpdatedAt.Before(minLastActivityTS)` with
`minLastActivityTS = now - days` (instants measured in days). -/
def staleTimestamp (now days : Int) (t : Option Int) : Bool :=
  match t with
  | some ts => decide (ts < now - days)
  | none => false

/-- The inactivity test guarded by `c.cfg.MinLastActivityDays > 0`: both the
updated and the pushed timestamps must be stale. -/
def inactiveRepo (now : Int) (cfg : GHEConfig) (repo : RepoMetadata) : Bool :=
  decide (0 < cfg.MinLastActivityDays)
    && staleTimestamp now cfg.MinLastActivityDays repo.UpdatedAt
    && staleTimestamp now cfg.MinLastActivityDays repo.PushedAt

/-- Outcome of the filtering loop body for one repository: either excluded
with the metric key the code attributes (`repoMetrics` key), or selected. -/
inductive FilterResult where
  | excluded (reason : String)
  | selected
deriving DecidableEq, Repr

/-- The body of the repository loop in `orgRepositories` (github.go): the
seven `continue` guards in source order, then selection. -/
def filterRepo (now : Int) (cfg : GHEConfig) (repo : RepoMetadata) : FilterResult :=
  if tooBig cfg repo then .excluded "too_big"
  else if emptyRepo cfg repo then .excluded "empty"
  else if archivedRepo cfg repo then .excluded "archived"
  else if disabledRepo cfg repo then .excluded "disabled"
  else if forkRepo cfg repo then .excluded "fork"
  else if templateRepo cfg repo then .excluded "template"
  else if inactiveRepo now cfg repo then .excluded "inactive"
  else .selected

/-- The accumulation of `allRepos` in `orgRepositories`: selected
repositories contribute `*repo.CloneURL`, in order. -/
def selectRepos (now : Int) (cfg : GHEConfig) (repos : List RepoMetadata) : List String :=
  repos.foldl
    (fun acc repo =>
      match filterRepo now cfg repo with
      | .selected => acc ++ [repo.CloneURL]
      | .excluded _ => acc)
    []

/-! ## Lava findings and summaries (lava.go) -/

/-- One resource group attached to a vulcan-report vulnerability; only its
`Rows` are read by `scanRepo`.  A row is a string-keyed map
(`map[string]string`), modelled as an association list with unique keys;
`List.lookup` is the map access `control["Control"]`. -/
structure ResourcesGroup where
  Rows : List (List (String × String))
deriving DecidableEq, Repr

/-- A vulcan-report `Vulnerability` (the scanner Finding), restricted to the
fields `scanRepo` reads.  The numeric score is modelled as a rational; the
code only compares it for equality with zero. -/
structure Vulnerability where
  AffectedResource : String
  Score : Rat
  Resources : List ResourcesGroup
deriving DecidableEq, Repr

/-- `lava.Summary`. -/
structure Summary where
  Repository : String
  Controls : List String
  ControlInPlace : Bool
  NumberOfControls : Int
  Error : String
deriving DecidableEq, Repr

/-- The inner loop body of the Finding-to-Summary conversion: one row either
contributes its "Control" value (incrementing the counter) or nothing. -/
def addRow (s : Summary) (row : List (String × String)) : Summary :=
  match List.lookup "Control" row with
  | some val =>
      { s with NumberOfControls := s.NumberOfControls + 1,
               Controls := s.Controls ++ [val] }
  | none => s

/-- The middle loop of the conversion: fold `addRow` over one resource's rows. -/
def addResource (s : Summary) (g : ResourcesGroup) : Summary :=
  g.Rows.foldl addRow s

/-- The Finding-to-Summary conversion of `scanRepo` (lava.go): start from the
repository, the score test and empty controls, then fold over all resources. -/
def summaryOfVuln (r : Vulnerability) : Summary :=
  r.Resources.foldl addResource
    { Repository := r.AffectedResource
      ControlInPlace := decide (r.Score = 0)
      Controls := []
      NumberOfControls := 0
      Error := "" }

/-- The "Control" value of one row, if any. -/
def rowControl (row : List (String × String)) : Option String :=
  List.lookup "Control" row

/-- The "Control" values of every row of every resource of a finding, in
encounter order. -/
def vulnControls (r : Vulnerability) : List String :=
  (r.Resources.map (fun g => g.Rows.filterMap rowControl)).flatten

/-- The error Summary built by the two failure branches of `scanRepo`: all
fields other than `Repository` and `Error` keep their Go zero values. -/
def errorSummary (repo msg : String) : Summary :=
  { Repository := repo, Controls := [], ControlInPlace := false,
    NumberOfControls := 0, Error := msg }

/-- The outcome classification of `scanRepo` (lava.go).  The child process
and the JSON decoder are external: `exitCode` stands for
`cmd.ProcessState.ExitCode()`, `runErrMsg` for `err.Error()` of `cmd.Run`,
and `parsed` for the result of `json.Unmarshal` on the captured standard
output (`Except.error` carries the decode error's message). -/
def scanRepo (repo : String) (exitCode : Int) (runErrMsg : String)
    (parsed : Except String (List Vulnerability)) : List Summary :=
  if 0 < exitCode then
    [errorSummary repo ("error running Lava: " ++ runErrMsg)]
  else
    match parsed with
    | Except.error jsonErr =>
        [errorSummary repo ("error unmarsalling Lava report: " ++ jsonErr)]
    | Except.ok lr => lr.map summaryOfVuln

/-- The scanner argument list built by `scanRepo` (lava.go). -/
def lavaCmdArgs (cfg : LavaConfig) (repo : String) : List String :=
  ["run",
   "-var", "GITHUB_ENTERPRISE_ENDPOINT=" ++ cfg.BaseURL,
   "-var", "GITHUB_ENTERPRISE_TOKEN=" ++ cfg.Token,
   "-type=GitRepository",
   "-show", "info",
   "-fmt=json",
   cfg.CheckImage,
   repo]

/-! ## Character-level string machinery

Go's `strings` functions used by the source (`Join`, `Split`, `Trim`,
`Replace` with count -1) are modelled on `List Char`, where kernel
evaluation is reliable.  `String.data` bridges from `String`. -/

/-- `t` is a leading segment of `s` (Go: `strings.HasPrefix s t`). -/
def leadsWith : List Char → List Char → Bool
  | [], _ => true
  | _ :: _, [] => false
  | a :: t, b :: s => a == b && leadsWith t s

/-- `t` occurs as a contiguous segment somewhere in `s`
(Go: `strings.Contains s t`). -/
def occursWithin (t : List Char) : List Char → Bool
  | [] => t.isEmpty
  | c :: s => leadsWith t (c :: s) || occursWithin t s

/-- Leftmost-scanning split of `s` on the non-empty separator `c₀ :: t₀`,
fuelled for structural recursion (Go: `strings.Split s sep` for non-empty
`sep`).  `fuel ≥ s.length` makes the fuel-exhaustion branch unreachable. -/
def splitOnSubGo (c₀ : Char) (t₀ : List Char) : Nat → List Char → List (List Char)
  | _, [] => [[]]
  | 0, s => [s]
  | fuel + 1, c :: s =>
    if leadsWith (c₀ :: t₀) (c :: s) then
      [] :: splitOnSubGo c₀ t₀ fuel (List.drop t₀.length s)
    else
      match splitOnSubGo c₀ t₀ fuel s with
      | [] => [[c]]
      | chunk :: rest => (c :: chunk) :: rest

/-- `strings.Split s (c₀ :: t₀)`. -/
def splitOnSub (c₀ : Char) (t₀ : List Char) (s : List Char) : List (List Char) :=
  splitOnSubGo c₀ t₀ s.length s

/-- `strings.Join chunks r`. -/
def joinWith (r : List Char) : List (List Char) → List Char
  | [] => []
  | [chunk] => chunk
  | chunk :: next :: rest => chunk ++ r ++ joinWith r (next :: rest)

/-- `strings.Replace s t r -1` for a non-empty pattern `t`: replace every
leftmost-scanned non-overlapping occurrence of `t` by `r` (equivalently,
join the split on `t` with `r`).  The code never calls it with an empty
pattern on the paths modelled here (the token is non-empty). -/
def replaceAll (s t r : List Char) : List Char :=
  match t with
  | [] => s
  | c₀ :: t₀ => joinWith r (splitOnSub c₀ t₀ s)

/-- `strings.Join args " "` at the character level. -/
def charsJoin (args : List String) : List Char :=
  joinWith [' '] (args.map String.data)

/-- The logged command line of `scanRepo` (lava.go):
`strings.Replace(strings.Join(lavaCmdArgs, " "), c.cfg.Token, "REDACTED", -1)`. -/
def loggedCmd (cfg : LavaConfig) (repo : String) : List Char :=
  replaceAll (charsJoin (lavaCmdArgs cfg repo)) cfg.Token.data "REDACTED".data

/-! ## Raw-result persistence (lava.go: storeResults, orgAndRepo) -/

/-- `strings.Trim s "/"`: drop '/' characters from both ends. -/
def trimSlashes (s : List Char) : List Char :=
  ((s.dropWhile (· == '/')).reverse.dropWhile (· == '/')).reverse

/-- The path component of `url.Parse target` for clone-URL-shaped inputs
(`scheme://host/path...` or a bare path): everything from the first '/'
after the authority, "" when there is none.  Query, fragment and userinfo
components, absent from clone URLs, are not modelled; nor are the rare
inputs `url.Parse` rejects outright. -/
def urlPath (target : List Char) : List Char :=
  match splitOnSub ':' ['/', '/'] target with
  | [_] => target
  | _ :: rest =>
    match splitOnSub '/' [] (joinWith [':', '/', '/'] rest) with
    | [] => []
    | [_] => []
    | _ :: seg :: segs => '/' :: joinWith ['/'] (seg :: segs)
  | [] => target

/-- `strings.Split(strings.Trim(parsedURL.Path, "/"), "/")` of `orgAndRepo`. -/
def pathSegments (target : String) : List (List Char) :=
  splitOnSub '/' [] (trimSlashes (urlPath target.data))

/-- `orgAndRepo` (lava.go): the first two segments of the slash-trimmed URL
path, or an error when there are fewer than two. -/
def orgAndRepo (target : String) : Except String (String × String) :=
  match pathSegments target with
  | p0 :: p1 :: _ => Except.ok (String.mk p0, String.mk p1)
  | _ => Except.error ("invalid GitHub URL path: " ++ String.mk (urlPath target.data))

/-- The filesystem writes `storeResults` intends: target directory, the two
file paths, and the bytes.  Directory creation and the writes themselves are
operating-system effects; their failures only log and return early. -/
structure StoredResults where
  dir : String
  stdoutFile : String
  stderrFile : String
  stdout : String
  stderr : String
deriving DecidableEq, Repr

/-- `storeResults` (lava.go): skip when no results path is configured or the
target does not parse into organization and repository; otherwise persist
under `<resultsPath><org>/<repo>/{stdout.json,stderr.log}`. -/
def storeResults (resultsPath target stdout stderr : String) : Option StoredResults :=
  if resultsPath = "" then none
  else
    match orgAndRepo target with
    | Except.error _ => none
    | Except.ok (org, repo) =>
      let dir := resultsPath ++ org ++ "/" ++ repo
      some { dir := dir
             stdoutFile := dir ++ "/stdout.json"
             stderrFile := dir ++ "/stderr.log"
             stdout := stdout
             stderr := stderr }

/-- The scan step of `(c *Client).scanRepo` including its persistence call:
the raw byte streams are handed to `storeResults` right after the child
process finishes, before the exit-code and parse classification, and the
Summary batch is computed exactly as in `scanRepo`. -/
def scanRepoWithStore (cfg : LavaConfig) (repo : String) (stdout stderr : String)
    (exitCode : Int) (runErrMsg : String)
    (parsed : Except String (List Vulnerability)) :
    List Summary × Option StoredResults :=
  (scanRepo repo exitCode runErrMsg parsed,
   storeResults cfg.ResultsPath repo stdout stderr)

/-! ## Client construction (github.go and lava.go: NewClient) -/

/-- `github.NewClient` configuration handling: validation of token and base
URL, then the concurrency floor.  The URL parse of `BaseURL + "/api/v3/"`
and the authentication round trip are external; `urlParseOk` and `authOk`
stand for their success. -/
def githubNewClient (urlParseOk authOk : Bool) (cfg : GHEConfig) :
    Except String GHEConfig :=
  if cfg.Token = "" then Except.error "GitHub Enterprise token is required"
  else if cfg.BaseURL = "" then
    Except.error "GitHub Enterprise API base URL is required"
  else
    let cfg := if cfg.Concurrency ≤ 0 then { cfg with Concurrency := 1 } else cfg
    if !urlParseOk then Except.error "failed to parse GitHub Enteprise API URL"
    else if !authOk then Except.error "failed to authenticate with GitHub"
    else Except.ok cfg

/-- `lava.NewClient` configuration handling; `binaryFound` stands for the
external `exec.LookPath` succeeding on `cfg.BinaryPath`. -/
def lavaNewClient (binaryFound : Bool) (cfg : LavaConfig) :
    Except String LavaConfig :=
  if cfg.Token = "" then Except.error "GitHub Enterprise token is required"
  else if cfg.BaseURL = "" then
    Except.error "GitHub Enterprise API base URL is required"
  else
    let cfg := if cfg.Concurrency ≤ 0 then { cfg with Concurrency := 1 } else cfg
    if !binaryFound then Except.error "failed to find Lava binary"
    else if cfg.CheckImage = "" then Except.error "lava check image is required"
    else Except.ok cfg

/-! ## Output writer (internal/output/output.go) -/

/-- ASCII lowering of one character, the fragment of Go's `strings.ToLower`
relevant to the format flag. -/
def lowerChar (c : Char) : Char :=
  if 'A' ≤ c ∧ c ≤ 'Z' then Char.ofNat (c.toNat + 32) else c

/-- `strings.ToLower` restricted to ASCII input. -/
def asciiToLower (s : String) : String :=
  String.mk (s.data.map lowerChar)

/-- `output.ErrOutputFileRequired`'s message. -/
def ErrOutputFileRequired : String := "output file is required and was not provided"

/-- `output.ErrUnsupportedFormat`'s message. -/
def ErrUnsupportedFormat : String := "unsupported format"

/-- The fixed CSV header row written by `output.Write`. -/
def csvHeader : List String :=
  ["repository", "control_in_place", "number_of_controls", "controls", "error"]

/-- One CSV record per Summary, in the field order of `output.Write`:
`strconv.FormatBool`, `strconv.Itoa` and `strings.Join(controls, "#")`. -/
def summaryRow (s : Summary) : List String :=
  [s.Repository,
   if s.ControlInPlace then "true" else "false",
   toString s.NumberOfControls,
   String.intercalate "#" s.Controls,
   s.Error]

/-- What `output.Write` hands to the chosen encoder: the CSV records in
order, or the Summary list given to the indented JSON encoder.  The byte
encodings (CSV quoting, JSON syntax) are the external `encoding/csv` and
`encoding/json` writers. -/
inductive OutputContent where
  | csvRows (rows : List (List String))
  | jsonSummaries (xs : List Summary)
deriving DecidableEq, Repr

/-- `output.Write` (output.go): fail fast on an empty output path, then
dispatch on the lowercased format; CSV writes the header then one record
per Summary, JSON encodes the collection, anything else is unsupported.
`os.Create` and encoder write errors are external failures not modelled. -/
def write (format file : String) (summary : List Summary) :
    Except String OutputContent :=
  if file = "" then Except.error ErrOutputFileRequired
  else if asciiToLower format = "csv" then
    Except.ok (OutputContent.csvRows
      (summary.foldl (fun acc s => acc ++ [summaryRow s]) [csvHeader]))
  else if asciiToLower format = "json" then
    Except.ok (OutputContent.jsonSummaries summary)
  else Except.error ErrUnsupportedFormat

/-! ## Helper lemmas: the Finding-to-Summary fold -/

theorem addRow_fields (s : Summary) (row : List (String × String)) :
    (addRow s row).Repository = s.Repository ∧
    (addRow s row).ControlInPlace = s.ControlInPlace ∧
    (addRow s row).Error = s.Error ∧
    (addRow s row).Controls = s.Controls ++ (rowControl row).toList ∧
    (addRow s row).NumberOfControls =
      s.NumberOfControls + ((rowControl row).toList.length : Int) := by
  unfold addRow rowControl
  cases List.lookup "Control" row <;> simp

theorem foldl_addRow_fields (rows : List (List (String × String))) (s : Summary) :
    (rows.foldl addRow s).Repository = s.Repository ∧
    (rows.foldl addRow s).ControlInPlace = s.ControlInPlace ∧
    (rows.foldl addRow s).Error = s.Error ∧
    (rows.foldl addRow s).Controls = s.Controls ++ rows.filterMap rowControl ∧
    (rows.foldl addRow s).NumberOfControls =
      s.NumberOfControls + ((rows.filterMap rowControl).length : Int) := by
  induction rows generalizing s with
  | nil => simp
  | cons row rows ih =>
    obtain ⟨h1, h2, h3, h4, h5⟩ := addRow_fields s row
    obtain ⟨g1, g2, g3, g4, g5⟩ := ih (addRow s row)
    simp only [List.foldl_cons, List.filterMap_cons]
    refine ⟨by rw [g1, h1], by rw [g2, h2], by rw [g3, h3], ?_, ?_⟩
    · rw [g4, h4, List.append_assoc]
      cases hlk : rowControl row <;> simp [hlk]
    · rw [g5, h5]
      cases hlk : rowControl row
      · simp [hlk]
      · simp [hlk]
        omega

theorem foldl_addResource_fields (gs : List ResourcesGroup) (s : Summary) :
    (gs.foldl addResource s).Repository = s.Repository ∧
    (gs.foldl addResource s).ControlInPlace = s.ControlInPlace ∧
    (gs.foldl addResource s).Error = s.Error ∧
    (gs.foldl addResource s).Controls =
      s.Controls ++ (gs.map (fun g => g.Rows.filterMap rowControl)).flatten ∧
    (gs.foldl addResource s).NumberOfControls =
      s.NumberOfControls +
        (((gs.map (fun g => g.Rows.filterMap rowControl)).flatten).length : Int) := by
  induction gs generalizing s with
  | nil => simp
  | cons g gs ih =>
    obtain ⟨h1, h2, h3, h4, h5⟩ := foldl_addRow_fields g.Rows s
    obtain ⟨g1, g2, g3, g4, g5⟩ := ih (addResource s g)
    simp only [addResource] at g1 g2 g3 g4 g5
    simp only [List.foldl_cons, List.map_cons, List.flatten_cons, addResource]
    refine ⟨by rw [g1, h1], by rw [g2, h2], by rw [g3, h3], ?_, ?_⟩
    · rw [g4, h4, List.append_assoc]
    · rw [g5, h5, List.length_append]
      push_cast
      ring

theorem summaryOfVuln_fields (r : Vulnerability) :
    (summaryOfVuln r).Repository = r.AffectedResource ∧
    ((summaryOfVuln r).ControlInPlace = true ↔ r.Score = 0) ∧
    (summaryOfVuln r).Controls = vulnControls r ∧
    (summaryOfVuln r).NumberOfControls = ((vulnControls r).length : Int) ∧
    (summaryOfVuln r).Error = "" := by
  obtain ⟨h1, h2, h3, h4, h5⟩ := foldl_addResource_fields r.Resources
    { Repository := r.AffectedResource
      ControlInPlace := decide (r.Score = 0)
      Controls := []
      NumberOfControls := 0
      Error := "" }
  unfold summaryOfVuln vulnControls
  refine ⟨by simpa using h1, ?_, by simpa using h4, ?_, by simpa using h3⟩
  · rw [h2]
    simp
  · rw [h5]
    simp

/-- A non-empty string stays non-empty after appending. -/
theorem append_left_ne_empty (a b : String) (h : a.data ≠ []) : a ++ b ≠ "" := by
  intro hc
  apply h
  have hd := congrArg String.data hc
  rw [String.data_append] at hd
  exact (List.append_eq_nil.mp hd).1

/-! ## Claim theorems: scan summarisation and error handling -/

/-- C1: a successfully parsed scanner output maps each Finding to exactly one
Summary: the repository is the affected resource, the control-in-place flag
holds exactly when the score is zero, the controls are the row values keyed
"Control" in encounter order, the count is the list's length, and the number
of Summaries equals the number of Findings. -/
theorem scan_summarises_each_finding (repo e : String) (lr : List Vulnerability) :
    scanRepo repo 0 e (Except.ok lr) = lr.map summaryOfVuln ∧
    (scanRepo repo 0 e (Except.ok lr)).length = lr.length ∧
    ∀ r : Vulnerability,
      (summaryOfVuln r).Repository = r.AffectedResource ∧
      ((summaryOfVuln r).ControlInPlace = true ↔ r.Score = 0) ∧
      (summaryOfVuln r).Controls = vulnControls r ∧
      (summaryOfVuln r).NumberOfControls = ((vulnControls r).length : Int) ∧
      (summaryOfVuln r).Error = "" := by
  refine ⟨rfl, by simp [scanRepo], fun r => summaryOfVuln_fields r⟩

/-- C2: a non-zero exit code yields exactly one error Summary whose message
is the run error prefixed "error running Lava: ", with empty controls and a
non-empty error field, independently of what standard output parsed to; a
zero exit code with unparsable output yields exactly one error Summary with
the distinct "error unmarsalling Lava report: " message.  `scanRepo` returns
the terminal outcome directly — there is no retry. -/
theorem scanner_failure_one_error_summary (repo runMsg jsonMsg : String) (e : Int)
    (parsed parsed' : Except String (List Vulnerability))
    (hne : e ≠ 0) (hnn : 0 ≤ e) :
    scanRepo repo e runMsg parsed =
      [errorSummary repo ("error running Lava: " ++ runMsg)] ∧
    (scanRepo repo e runMsg parsed).length = 1 ∧
    scanRepo repo e runMsg parsed = scanRepo repo e runMsg parsed' ∧
    (∀ s ∈ scanRepo repo e runMsg parsed, s.Error ≠ "" ∧ s.Controls = []) ∧
    scanRepo repo 0 runMsg (Except.error jsonMsg) =
      [errorSummary repo ("error unmarsalling Lava report: " ++ jsonMsg)] := by
  have hpos : 0 < e := lt_of_le_of_ne hnn (Ne.symm hne)
  have hrun : ∀ p : Except String (List Vulnerability),
      scanRepo repo e runMsg p =
        [errorSummary repo ("error running Lava: " ++ runMsg)] := by
    intro p
    simp [scanRepo, hpos]
  refine ⟨hrun parsed, by rw [hrun parsed]; rfl, by rw [hrun parsed, hrun parsed'], ?_, by simp [scanRepo]⟩
  intro s hs
  rw [hrun parsed] at hs
  simp only [List.mem_singleton] at hs
  subst hs
  exact ⟨append_left_ne_empty _ _ (by decide), rfl⟩

/-- C2's witness: the contract at a concrete failing invocation. -/
theorem scanner_failure_one_error_summary_witness :
    scanRepo "https://ghe.example/o/r" 1 "exit status 1" (Except.ok []) =
      [errorSummary "https://ghe.example/o/r" "error running Lava: exit status 1"] :=
  (scanner_failure_one_error_summary "https://ghe.example/o/r" "exit status 1" "x" 1
    (Except.ok []) (Except.ok []) (by decide) (by decide)).1

/-- C5 counterexample: a scanner run that exits zero with a well-formed but
empty Finding array yields zero Summaries, not at least one. -/
theorem scan_empty_findings_no_summary_cex :
    ¬ (1 ≤ (scanRepo "https://ghe.example/org1/repo1" 0 "" (Except.ok [])).length) := by
  decide

/-- C5 amended: a repository entering the scan stage yields no Summary
exactly when the scanner exits with code at most zero and its output parses
as an empty Finding array; every other outcome yields at least one Summary
(exactly one on either failure path). -/
theorem scan_summary_absence_characterised (repo msg : String) (e : Int)
    (parsed : Except String (List Vulnerability)) :
    (scanRepo repo e msg parsed = [] ↔ e ≤ 0 ∧ parsed = Except.ok []) := by
  unfold scanRepo
  split
  · rename_i hpos
    constructor
    · intro h
      exact absurd h (by simp)
    · rintro ⟨hle, -⟩
      omega
  · rename_i hpos
    have hle : e ≤ 0 := by omega
    cases parsed with
    | error je =>
      constructor
      · intro h
        exact absurd h (by simp)
      · rintro ⟨-, h⟩
        exact absurd h (by simp)
    | ok lr =>
      simp [hle]

/-! ## Claim theorems: the repository filter -/

theorem selectRepos_accum (now : Int) (cfg : GHEConfig) (repos : List RepoMetadata)
    (acc : List String) :
    repos.foldl
      (fun acc repo =>
        match filterRepo now cfg repo with
        | .selected => acc ++ [repo.CloneURL]
        | .excluded _ => acc)
      acc =
    acc ++ (repos.filter
        (fun r => decide (filterRepo now cfg r = FilterResult.selected))).map
      RepoMetadata.CloneURL := by
  induction repos generalizing acc with
  | nil => simp
  | cons r repos ih =>
    simp only [List.foldl_cons, List.filter_cons]
    cases hf : filterRepo now cfg r with
    | selected => simp [hf, ih]
    | excluded reason => simp [hf, ih]

/-- Each possible outcome of `filterRepo`, characterised by the seven
predicates: an exclusion reason is reported exactly when its predicate is
the first to fire, and selection means none fired. -/
theorem filterRepo_characterisation (now : Int) (cfg : GHEConfig)
    (repo : RepoMetadata) :
    (filterRepo now cfg repo = FilterResult.excluded "too_big" ↔
      tooBig cfg repo = true) ∧
    (filterRepo now cfg repo = FilterResult.excluded "empty" ↔
      (tooBig cfg repo = false ∧ emptyRepo cfg repo = true)) ∧
    (filterRepo now cfg repo = FilterResult.excluded "archived" ↔
      (tooBig cfg repo = false ∧ emptyRepo cfg repo = false ∧
       archivedRepo cfg repo = true)) ∧
    (filterRepo now cfg repo = FilterResult.excluded "disabled" ↔
      (tooBig cfg repo = false ∧ emptyRepo cfg repo = false ∧
       archivedRepo cfg repo = false ∧ disabledRepo cfg repo = true)) ∧
    (filterRepo now cfg repo = FilterResult.excluded "fork" ↔
      (tooBig cfg repo = false ∧ emptyRepo cfg repo = false ∧
       archivedRepo cfg repo = false ∧ disabledRepo cfg repo = false ∧
       forkRepo cfg repo = true)) ∧
    (filterRepo now cfg repo = FilterResult.excluded "template" ↔
      (tooBig cfg repo = false ∧ emptyRepo cfg repo = false ∧
       archivedRepo cfg repo = false ∧ disabledRepo cfg repo = false ∧
       forkRepo cfg repo = false ∧ templateRepo cfg repo = true)) ∧
    (filterRepo now cfg repo = FilterResult.excluded "inactive" ↔
      (tooBig cfg repo = false ∧ emptyRepo cfg repo = false ∧
       archivedRepo cfg repo = false ∧ disabledRepo cfg repo = false ∧
       forkRepo cfg repo = false ∧ templateRepo cfg repo = false ∧
       inactiveRepo now cfg repo = true)) ∧
    (filterRepo now cfg repo = FilterResult.selected ↔
      (tooBig cfg repo = false ∧ emptyRepo cfg repo = false ∧
       archivedRepo cfg repo = false ∧ disabledRepo cfg repo = false ∧
       forkRepo cfg repo = false ∧ templateRepo cfg repo = false ∧
       inactiveRepo now cfg repo = false)) := by
  unfold filterRepo
  repeat' split
  all_goals simp_all

/-- C3: the repository filter tests size ceiling, empty, archived, disabled,
fork, template and inactivity in this order, stopping at the first predicate
that fires — in particular an over-sized repository is excluded as "too_big"
regardless of every other field — and a repository that fails none of the
seven predicates is selected and contributes its clone address to the result
list. -/
theorem filter_order_and_inclusion (now : Int) (cfg : GHEConfig)
    (repo : RepoMetadata) (repos : List RepoMetadata) :
    (∀ s : Int, repo.Size = some s → cfg.RepositorySizeLimit < s →
        filterRepo now cfg repo = FilterResult.excluded "too_big") ∧
    (filterRepo now cfg repo = FilterResult.excluded "empty" ↔
      (tooBig cfg repo = false ∧ emptyRepo cfg repo = true)) ∧
    (filterRepo now cfg repo = FilterResult.excluded "archived" ↔
      (tooBig cfg repo = false ∧ emptyRepo cfg repo = false ∧
       archivedRepo cfg repo = true)) ∧
    (filterRepo now cfg repo = FilterResult.excluded "disabled" ↔
      (tooBig cfg repo = false ∧ emptyRepo cfg repo = false ∧
       archivedRepo cfg repo = false ∧ disabledRepo cfg repo = true)) ∧
    (filterRepo now cfg repo = FilterResult.excluded "fork" ↔
      (tooBig cfg repo = false ∧ emptyRepo cfg repo = false ∧
       archivedRepo cfg repo = false ∧ disabledRepo cfg repo = false ∧
       forkRepo cfg repo = true)) ∧
    (filterRepo now cfg repo = FilterResult.excluded "template" ↔
      (tooBig cfg repo = false ∧ emptyRepo cfg repo = false ∧
       archivedRepo cfg repo = false ∧ disabledRepo cfg repo = false ∧
       forkRepo cfg repo = false ∧ templateRepo cfg repo = true)) ∧
    (filterRepo now cfg repo = FilterResult.excluded "inactive" ↔
      (tooBig cfg repo = false ∧ emptyRepo cfg repo = false ∧
       archivedRepo cfg repo = false ∧ disabledRepo cfg repo = false ∧
       forkRepo cfg repo = false ∧ templateRepo cfg repo = false ∧
       inactiveRepo now cfg repo = true)) ∧
    (filterRepo now cfg repo = FilterResult.selected ↔
      (tooBig cfg repo = false ∧ emptyRepo cfg repo = false ∧
       archivedRepo cfg repo = false ∧ disabledRepo cfg repo = false ∧
       forkRepo cfg repo = false ∧ templateRepo cfg repo = false ∧
       inactiveRepo now cfg repo = false)) ∧
    selectRepos now cfg repos =
      (repos.filter
          (fun r => decide (filterRepo now cfg r = FilterResult.selected))).map
        RepoMetadata.CloneURL := by
  obtain ⟨i1, i2, i3, i4, i5, i6, i7, i8⟩ := filterRepo_characterisation now cfg repo
  refine ⟨?_, i2, i3, i4, i5, i6, i7, i8, ?_⟩
  · intro s hs hlt
    apply i1.mpr
    unfold tooBig
    rw [hs]
    simpa using hlt
  · simpa [selectRepos] using selectRepos_accum now cfg repos []

/-- C3's witness: the size ceiling dominates for a 20 KB repository under a
10 KB ceiling even though it is also archived, and a repository passing all
predicates is selected. -/
theorem filter_order_and_inclusion_witness :
    filterRepo 0
      { Token := "t", BaseURL := "u", Concurrency := 1, RepositorySizeLimit := 10,
        IncludeArchived := false, IncludeEmpty := false, IncludeForks := false,
        IncludeTemplates := false, IncludeDisabled := false, MinLastActivityDays := 0 }
      { Size := some 20, Archived := some true, Disabled := some false,
        Fork := some false, IsTemplate := some false, UpdatedAt := none,
        PushedAt := none, CloneURL := "https://ghe.example/o/r.git" } =
      FilterResult.excluded "too_big" :=
  (filter_order_and_inclusion 0 _ _ []).1 20 rfl (by decide)

/-- C4: the inactivity predicate never fires when the recency threshold is
not positive; when it does fire both timestamps were stale; and a repository
surviving the six earlier predicates is kept unless both timestamps are
stale. -/
theorem inactivity_needs_both_timestamps (now : Int) (cfg : GHEConfig)
    (repo : RepoMetadata) :
    (cfg.MinLastActivityDays ≤ 0 →
        filterRepo now cfg repo ≠ FilterResult.excluded "inactive") ∧
    (filterRepo now cfg repo = FilterResult.excluded "inactive" →
        0 < cfg.MinLastActivityDays ∧
        staleTimestamp now cfg.MinLastActivityDays repo.UpdatedAt = true ∧
        staleTimestamp now cfg.MinLastActivityDays repo.PushedAt = true) ∧
    (tooBig cfg repo = false → emptyRepo cfg repo = false →
     archivedRepo cfg repo = false → disabledRepo cfg repo = false →
     forkRepo cfg repo = false → templateRepo cfg repo = false →
     ¬(staleTimestamp now cfg.MinLastActivityDays repo.UpdatedAt = true ∧
        staleTimestamp now cfg.MinLastActivityDays repo.PushedAt = true) →
        filterRepo now cfg repo = FilterResult.selected) := by
  refine ⟨?_, ?_, ?_⟩
  · intro hdays
    have hin : inactiveRepo now cfg repo = false := by
      have hd : decide (0 < cfg.MinLastActivityDays) = false := by
        simp only [decide_eq_false_iff_not]
        omega
      simp [inactiveRepo, hd]
    unfold filterRepo
    repeat' split
    all_goals first
      | decide
      | simp_all
  · unfold filterRepo
    repeat' split
    all_goals intro hx
    all_goals first
      | exact absurd hx (by decide)
      | simpa [inactiveRepo, and_assoc] using ‹inactiveRepo now cfg repo = true›
  · intro h1 h2 h3 h4 h5 h6 hstale
    have hin : inactiveRepo now cfg repo = false := by
      unfold inactiveRepo
      cases hu : staleTimestamp now cfg.MinLastActivityDays repo.UpdatedAt with
      | false => simp [hu]
      | true =>
        cases hp : staleTimestamp now cfg.MinLastActivityDays repo.PushedAt with
        | false => simp [hp]
        | true => exact absurd ⟨hu, hp⟩ hstale
    simp [filterRepo, h1, h2, h3, h4, h5, h6, hin]

/-- C4's witness: with a 30-day threshold, a repository whose last update is
stale but whose last push is recent survives the filter. -/
theorem inactivity_needs_both_timestamps_witness :
    filterRepo 100
      { Token := "t", BaseURL := "u", Concurrency := 1, RepositorySizeLimit := 10,
        IncludeArchived := false, IncludeEmpty := false, IncludeForks := false,
        IncludeTemplates := false, IncludeDisabled := false, MinLastActivityDays := 30 }
      { Size := some 5, Archived := some false, Disabled := some false,
        Fork := some false, IsTemplate := some false, UpdatedAt := some 0,
        PushedAt := some 99, CloneURL := "u" } = FilterResult.selected :=
  (inactivity_needs_both_timestamps 100 _ _).2.2 rfl rfl rfl rfl rfl rfl
    (by decide)

/-- The repository metadata record with every optional field absent. -/
def absentMeta (cloneURL : String) : RepoMetadata :=
  { Size := none, Archived := none, Disabled := none, Fork := none,
    IsTemplate := none, UpdatedAt := none, PushedAt := none,
    CloneURL := cloneURL }

/-- C10: absent metadata never triggers an exclusion predicate — a missing
size is neither too big nor empty, missing flags read as false, a missing
timestamp is never stale — so a repository with entirely absent metadata is
selected and contributes its clone address. -/
theorem absent_metadata_included (now : Int) (cfg : GHEConfig)
    (meta : RepoMetadata) (u : String) :
    tooBig cfg { meta with Size := none } = false ∧
    emptyRepo cfg { meta with Size := none } = false ∧
    archivedRepo cfg { meta with Archived := none } = false ∧
    disabledRepo cfg { meta with Disabled := none } = false ∧
    forkRepo cfg { meta with Fork := none } = false ∧
    templateRepo cfg { meta with IsTemplate := none } = false ∧
    inactiveRepo now cfg { meta with UpdatedAt := none } = false ∧
    inactiveRepo now cfg { meta with PushedAt := none } = false ∧
    filterRepo now cfg (absentMeta u) = FilterResult.selected ∧
    selectRepos now cfg [absentMeta u] = [u] := by
  refine ⟨rfl, by simp [emptyRepo], by simp [archivedRepo], by simp [disabledRepo],
    by simp [forkRepo], by simp [templateRepo],
    by simp [inactiveRepo, staleTimestamp],
    by simp [inactiveRepo, staleTimestamp], ?_, ?_⟩
  · simp [filterRepo, tooBig, emptyRepo, archivedRepo, disabledRepo, forkRepo,
      templateRepo, inactiveRepo, staleTimestamp, absentMeta]
  · simp [selectRepos, filterRepo, tooBig, emptyRepo, archivedRepo, disabledRepo,
      forkRepo, templateRepo, inactiveRepo, staleTimestamp, absentMeta]

/-! ## Claim theorems: client construction -/

theorem githubNewClient_concurrency (u a : Bool) (cfg cfg' : GHEConfig)
    (hg : githubNewClient u a cfg = Except.ok cfg') :
    cfg'.Concurrency = if cfg.Concurrency ≤ 0 then 1 else cfg.Concurrency := by
  simp only [githubNewClient] at hg
  repeat' split at hg
  all_goals try exact Except.noConfusion hg
  all_goals rw [Except.ok.injEq] at hg
  all_goals subst hg
  all_goals simp_all
  all_goals split
  all_goals omega

theorem lavaNewClient_concurrency (b : Bool) (lcfg lcfg' : LavaConfig)
    (hl : lavaNewClient b lcfg = Except.ok lcfg') :
    lcfg'.Concurrency = if lcfg.Concurrency ≤ 0 then 1 else lcfg.Concurrency := by
  simp only [lavaNewClient] at hl
  repeat' split at hl
  all_goals try exact Except.noConfusion hl
  all_goals rw [Except.ok.injEq] at hl
  all_goals subst hl
  all_goals simp_all
  all_goals split
  all_goals omega

/-- C6: both clients floor a non-positive configured concurrency to exactly
1 during construction and keep a positive one unchanged, so the effective
ceiling is always at least 1. -/
theorem concurrency_floored_to_one (u a b : Bool) (cfg cfg' : GHEConfig)
    (lcfg lcfg' : LavaConfig)
    (hg : githubNewClient u a cfg = Except.ok cfg')
    (hl : lavaNewClient b lcfg = Except.ok lcfg') :
    1 ≤ cfg'.Concurrency ∧
    (cfg.Concurrency ≤ 0 → cfg'.Concurrency = 1) ∧
    (0 < cfg.Concurrency → cfg'.Concurrency = cfg.Concurrency) ∧
    1 ≤ lcfg'.Concurrency ∧
    (lcfg.Concurrency ≤ 0 → lcfg'.Concurrency = 1) ∧
    (0 < lcfg.Concurrency → lcfg'.Concurrency = lcfg.Concurrency) := by
  have h1 := githubNewClient_concurrency u a cfg cfg' hg
  have h2 := lavaNewClient_concurrency b lcfg lcfg' hl
  split at h1 <;> split at h2 <;>
    exact ⟨by omega, by omega, by omega, by omega, by omega, by omega⟩

/-- The sample configurations for C6's witness: concurrency 0 and -3. -/
def gheCfgW : GHEConfig :=
  { Token := "t", BaseURL := "u", Concurrency := 0, RepositorySizeLimit := 10,
    IncludeArchived := false, IncludeEmpty := false, IncludeForks := false,
    IncludeTemplates := false, IncludeDisabled := false, MinLastActivityDays := 0 }

/-- The Lava sample configuration for C6's witness. -/
def lavaCfgW : LavaConfig :=
  { Token := "t", BaseURL := "u", Concurrency := -3, BinaryPath := "p",
    CheckImage := "i", ResultsPath := "" }

/-- C6's witness: a configured concurrency of 0 and one of -3 are both
constructed with effective concurrency at least 1. -/
theorem concurrency_floored_to_one_witness :
    1 ≤ ({ gheCfgW with Concurrency := 1 } : GHEConfig).Concurrency ∧
    1 ≤ ({ lavaCfgW with Concurrency := 1 } : LavaConfig).Concurrency := by
  obtain ⟨g1, -, -, g4, -, -⟩ :=
    concurrency_floored_to_one true true true gheCfgW { gheCfgW with Concurrency := 1 }
      lavaCfgW { lavaCfgW with Concurrency := 1 } rfl rfl
  exact ⟨g1, g4⟩

/-! ## Claim theorems: the output writer -/

theorem write_csv_rows_accum (summary : List Summary) (acc : List (List String)) :
    summary.foldl (fun acc s => acc ++ [summaryRow s]) acc =
      acc ++ summary.map summaryRow := by
  induction summary generalizing acc with
  | nil => simp
  | cons s rest ih => simp [ih]

/-- C8: the writer rejects an empty output path with the distinct
output-file-required error before producing anything, rejects any format
other than CSV or JSON (case-insensitively) with the distinct
unsupported-format error, writes for CSV exactly the fixed header followed
by one record per Summary with the controls joined by "#", and for JSON the
Summary collection handed to the indenting encoder. -/
theorem write_output_contract (format file : String) (summary : List Summary)
    (hfile : file ≠ "") :
    write format "" summary = Except.error ErrOutputFileRequired ∧
    (asciiToLower format ≠ "csv" → asciiToLower format ≠ "json" →
        write format file summary = Except.error ErrUnsupportedFormat) ∧
    (asciiToLower format = "csv" →
        write format file summary =
          Except.ok (OutputContent.csvRows (csvHeader :: summary.map summaryRow))) ∧
    (asciiToLower format = "json" →
        write format file summary = Except.ok (OutputContent.jsonSummaries summary)) ∧
    csvHeader =
      ["repository", "control_in_place", "number_of_controls", "controls", "error"] ∧
    (∀ s : Summary, summaryRow s =
      [s.Repository, if s.ControlInPlace then "true" else "false",
       toString s.NumberOfControls, String.intercalate "#" s.Controls, s.Error]) := by
  refine ⟨by simp [write], ?_, ?_, ?_, rfl, fun s => rfl⟩
  · intro h1 h2
    simp [write, hfile, h1, h2]
  · intro h1
    simp [write, hfile, h1, write_csv_rows_accum]
  · intro h1
    have h2 : asciiToLower format ≠ "csv" := by
      rw [h1]
      decide
    simp [write, hfile, h1, h2]

/-- C8's witness: an uppercase "CSV" flag with a non-empty path writes the
bare header for an empty Summary collection. -/
theorem write_output_contract_witness :
    write "CSV" "/tmp/reposec.csv" [] =
      Except.ok (OutputContent.csvRows [csvHeader]) :=
  (write_output_contract "CSV" "/tmp/reposec.csv" [] (by decide)).2.2.1 (by decide)

/-! ## Claim theorems: raw-result persistence -/

/-- The first two non-empty path segments of the target's URL path — the
path the specification's words describe, for comparison with `orgAndRepo`. -/
def specFirstTwoNonEmpty (target : String) : Option (String × String) :=
  match (pathSegments target).filter (fun seg => !seg.isEmpty) with
  | a :: b :: _ => some (String.mk a, String.mk b)
  | _ => none

/-- C7 counterexample: for a clone address whose URL path contains a double
slash, `orgAndRepo` returns the literal second segment — the empty string —
not the second non-empty segment, so the persistence directories are not the
first two non-empty path segments. -/
theorem orgAndRepo_empty_segment_cex :
    orgAndRepo "https://ghe.example/org//repo" = Except.ok ("org", "") ∧
    specFirstTwoNonEmpty "https://ghe.example/org//repo" = some ("org", "repo") ∧
    ("org", "") ≠ (("org", "repo") : String × String) :=
  ⟨rfl, rfl, by decide⟩

/-- C7 amended: persistence uses as organization and repository directories
the first two segments of the address's slash-trimmed URL path split on "/"
— segments may be empty when the path has consecutive slashes; an address
with fewer than two such segments skips persistence (as does an unset
results directory), and the Summary produced is independent both of the
configured results directory and of anything persistence did. -/
theorem store_results_path_and_frame (cfg : LavaConfig)
    (rp target stdout stderr : String) (p0 p1 : List Char)
    (rest : List (List Char)) (e e' : Int) (m m' : String)
    (pr pr' : Except String (List Vulnerability)) :
    (pathSegments target = p0 :: p1 :: rest →
        orgAndRepo target = Except.ok (String.mk p0, String.mk p1)) ∧
    ((pathSegments target).length < 2 →
        orgAndRepo target =
          Except.error
            ("invalid GitHub URL path: " ++ String.mk (urlPath target.data))) ∧
    storeResults "" target stdout stderr = none ∧
    (∀ err, orgAndRepo target = Except.error err →
        storeResults rp target stdout stderr = none) ∧
    (rp ≠ "" → ∀ org repo, orgAndRepo target = Except.ok (org, repo) →
        storeResults rp target stdout stderr =
          some { dir := rp ++ org ++ "/" ++ repo
                 stdoutFile := rp ++ org ++ "/" ++ repo ++ "/stdout.json"
                 stderrFile := rp ++ org ++ "/" ++ repo ++ "/stderr.log"
                 stdout := stdout
                 stderr := stderr }) ∧
    (scanRepoWithStore cfg target stdout stderr e m pr).1 =
      (scanRepoWithStore { cfg with ResultsPath := rp } target stdout stderr e m pr).1 ∧
    (scanRepoWithStore cfg target stdout stderr e m pr).2 =
      (scanRepoWithStore cfg target stdout stderr e' m' pr').2 := by
  refine ⟨?_, ?_, by simp [storeResults], ?_, ?_, rfl, rfl⟩
  · intro h
    simp [orgAndRepo, h]
  · intro hlen
    unfold orgAndRepo
    cases hseg : pathSegments target with
    | nil => rfl
    | cons a t =>
      cases t with
      | nil => rfl
      | cons b t' =>
        rw [hseg] at hlen
        simp at hlen
        omega
  · intro err herr
    unfold storeResults
    rw [herr]
    split
    · rfl
    · rfl
  · intro hrp org repo hok
    simp [storeResults, hrp, hok]

/-- C7's witness: with results directory "/res/", a well-formed clone
address is persisted under its organization and repository directories. -/
theorem store_results_path_and_frame_witness :
    storeResults "/res/" "https://ghe.example/org1/repo1" "out" "err" =
      some { dir := "/res/org1/repo1"
             stdoutFile := "/res/org1/repo1/stdout.json"
             stderrFile := "/res/org1/repo1/stderr.log"
             stdout := "out"
             stderr := "err" } :=
  (store_results_path_and_frame
      { Token := "t", BaseURL := "u", Concurrency := 1, BinaryPath := "p",
        CheckImage := "i", ResultsPath := "" }
      "/res/" "https://ghe.example/org1/repo1" "out" "err" [] [] [] 0 0 "" ""
      (Except.ok []) (Except.ok [])).2.2.2.2.1 (by decide) "org1" "repo1" rfl

/-! ## Helper lemmas: occurrences and replacement -/

theorem leadsWith_refl (s : List Char) : leadsWith s s = true := by
  induction s with
  | nil => rfl
  | cons c s ih => simp [leadsWith, ih]

theorem leadsWith_trans {t u v : List Char} (h1 : leadsWith t u = true)
    (h2 : leadsWith u v = true) : leadsWith t v = true := by
  induction t generalizing u v with
  | nil => rfl
  | cons a t ih =>
    cases u with
    | nil => simp [leadsWith] at h1
    | cons b u =>
      cases v with
      | nil => simp [leadsWith] at h2
      | cons c v =>
        simp only [leadsWith, Bool.and_eq_true, beq_iff_eq] at h1 h2 ⊢
        exact ⟨h1.1.trans h2.1, ih h1.2 h2.2⟩

theorem leadsWith_of_append {t a z : List Char} (hlen : t.length ≤ a.length)
    (h : leadsWith t (a ++ z) = true) : leadsWith t a = true := by
  induction t generalizing a with
  | nil => rfl
  | cons x t ih =>
    cases a with
    | nil => simp at hlen
    | cons b a =>
      simp only [List.cons_append, leadsWith, Bool.and_eq_true] at h ⊢
      exact ⟨h.1, ih (by simpa using hlen) h.2⟩

theorem mem_of_leadsWith_long {t a z : List Char} {x : Char}
    (h : leadsWith t (a ++ x :: z) = true) (hlen : a.length < t.length) :
    x ∈ t := by
  induction a generalizing t with
  | nil =>
    cases t with
    | nil => simp at hlen
    | cons y t =>
      simp only [List.nil_append, leadsWith, Bool.and_eq_true, beq_iff_eq] at h
      rw [h.1]
      exact List.mem_cons_self _ _
  | cons b a ih =>
    cases t with
    | nil => simp at hlen
    | cons y t =>
      simp only [List.cons_append, leadsWith, Bool.and_eq_true] at h
      exact List.mem_cons_of_mem _ (ih h.2 (by simpa using hlen))

theorem leadsWith_across_false {t a r J : List Char} (hdisj : ∀ c ∈ t, c ∉ r)
    (hr : r ≠ []) (hna : leadsWith t a = false) :
    leadsWith t (a ++ (r ++ J)) = false := by
  by_contra hcon
  rw [Bool.not_eq_false] at hcon
  rcases le_or_lt t.length a.length with hle | hlt
  · rw [leadsWith_of_append hle hcon] at hna
    simp at hna
  · cases r with
    | nil => exact hr rfl
    | cons x r' =>
      have hx : x ∈ t := by
        apply mem_of_leadsWith_long (a := a) (z := r' ++ J) _ hlt
        simpa using hcon
      exact hdisj x hx (List.mem_cons_self _ _)

theorem occursWithin_marker_false {t r J : List Char} (ht : t ≠ [])
    (hdisj : ∀ c ∈ t, c ∉ r) (hJ : occursWithin t J = false) :
    occursWithin t (r ++ J) = false := by
  induction r with
  | nil => simpa using hJ
  | cons x r' ih =>
    have hdisj' : ∀ c ∈ t, c ∉ r' := fun c hc hmem =>
      hdisj c hc (List.mem_cons_of_mem _ hmem)
    simp only [List.cons_append, occursWithin, Bool.or_eq_false_iff]
    refine ⟨?_, ih hdisj'⟩
    cases t with
    | nil => exact absurd rfl ht
    | cons y t' =>
      have hyx : y ≠ x := by
        intro he
        apply hdisj y (List.mem_cons_self _ _)
        rw [he]
        exact List.mem_cons_self _ _
      simp [leadsWith, hyx]

theorem occursWithin_join_step {t r ch J : List Char} (ht : t ≠ []) (hr : r ≠ [])
    (hdisj : ∀ c ∈ t, c ∉ r) (hch : occursWithin t ch = false)
    (hJ : occursWithin t J = false) :
    occursWithin t (ch ++ (r ++ J)) = false := by
  induction ch with
  | nil => simpa using occursWithin_marker_false ht hdisj hJ
  | cons c ch' ih =>
    simp only [occursWithin, Bool.or_eq_false_iff] at hch
    simp only [List.cons_append, occursWithin, Bool.or_eq_false_iff]
    refine ⟨?_, ih hch.2⟩
    have hacross := leadsWith_across_false (a := c :: ch') (J := J) hdisj hr hch.1
    simpa using hacross

theorem occursWithin_joinWith_false {t r : List Char} (chunks : List (List Char))
    (ht : t ≠ []) (hr : r ≠ []) (hdisj : ∀ c ∈ t, c ∉ r)
    (hall : ∀ ch ∈ chunks, occursWithin t ch = false) :
    occursWithin t (joinWith r chunks) = false := by
  induction chunks with
  | nil =>
    cases t with
    | nil => exact absurd rfl ht
    | cons y t' => rfl
  | cons ch rest ih =>
    cases rest with
    | nil => exact hall ch (List.mem_cons_self _ _)
    | cons ch2 rest' =>
      have h1 := hall ch (List.mem_cons_self _ _)
      have hJ := ih fun x hx => hall x (List.mem_cons_of_mem _ hx)
      have := occursWithin_join_step ht hr hdisj h1 hJ
      simpa [joinWith, List.append_assoc] using this

theorem splitOnSubGo_head_leads (c₀ : Char) (t₀ : List Char) (fuel : Nat) :
    ∀ s ch rest, splitOnSubGo c₀ t₀ fuel s = ch :: rest → leadsWith ch s = true := by
  induction fuel with
  | zero =>
    intro s ch rest h
    cases s with
    | nil =>
      simp [splitOnSubGo] at h
      rw [h.1]
      rfl
    | cons c s' =>
      simp [splitOnSubGo] at h
      rw [← h.1]
      exact leadsWith_refl _
  | succ fuel ih =>
    intro s ch rest h
    cases s with
    | nil =>
      simp [splitOnSubGo] at h
      rw [h.1]
      rfl
    | cons c s' =>
      simp only [splitOnSubGo] at h
      by_cases hlw : leadsWith (c₀ :: t₀) (c :: s') = true
      · rw [if_pos hlw] at h
        rw [(List.cons.injEq _ _ _ _).mp h |>.1 |> Eq.symm]
        rfl
      · rw [if_neg hlw] at h
        rcases hsp : splitOnSubGo c₀ t₀ fuel s' with _ | ⟨chunk, rest2⟩
        · rw [hsp] at h
          simp at h
          rw [← h.1]
          simp [leadsWith]
        · rw [hsp] at h
          have hhead := ih s' chunk rest2 hsp
          have hch : ch = c :: chunk := ((List.cons.injEq _ _ _ _).mp h).1.symm
          rw [hch]
          simp [leadsWith, hhead]

theorem splitOnSubGo_chunks_free (c₀ : Char) (t₀ : List Char) (fuel : Nat) :
    ∀ s, s.length ≤ fuel →
      ∀ ch ∈ splitOnSubGo c₀ t₀ fuel s, occursWithin (c₀ :: t₀) ch = false := by
  induction fuel with
  | zero =>
    intro s hlen ch hch
    have hs : s = [] := List.eq_nil_of_length_eq_zero (Nat.le_zero.mp hlen)
    subst hs
    simp [splitOnSubGo] at hch
    rw [hch]
    rfl
  | succ fuel ih =>
    intro s hlen ch hch
    cases s with
    | nil =>
      simp [splitOnSubGo] at hch
      rw [hch]
      rfl
    | cons c s' =>
      simp only [List.length_cons, Nat.succ_le_succ_iff] at hlen
      simp only [splitOnSubGo] at hch
      by_cases hlw : leadsWith (c₀ :: t₀) (c :: s') = true
      · rw [if_pos hlw] at hch
        rcases List.mem_cons.mp hch with h | h
        · rw [h]
          rfl
        · refine ih (List.drop t₀.length s') ?_ ch h
          rw [List.length_drop]
          omega
      · rw [if_neg hlw] at hch
        rcases hsp : splitOnSubGo c₀ t₀ fuel s' with _ | ⟨chunk, rest2⟩
        · rw [hsp] at hch
          simp at hch
          rw [hch]
          simp only [occursWithin, Bool.or_eq_false_iff]
          refine ⟨?_, rfl⟩
          by_contra hcon
          rw [Bool.not_eq_false] at hcon
          exact hlw (leadsWith_trans hcon (by simp [leadsWith]))
        · rw [hsp] at hch
          rcases List.mem_cons.mp hch with h | h
          · subst h
            have hfree : occursWithin (c₀ :: t₀) chunk = false := by
              refine ih s' hlen chunk ?_
              rw [hsp]
              exact List.mem_cons_self _ _
            have hhead := splitOnSubGo_head_leads c₀ t₀ fuel s' chunk rest2 hsp
            simp only [occursWithin, Bool.or_eq_false_iff]
            refine ⟨?_, hfree⟩
            by_contra hcon
            rw [Bool.not_eq_false] at hcon
            exact hlw (leadsWith_trans hcon (by simp [leadsWith, hhead]))
          · refine ih s' hlen ch ?_
            rw [hsp]
            exact List.mem_cons_of_mem _ h

/-- Replacing every occurrence of a non-empty pattern `t` by a replacement
`r` sharing no character with `t` leaves a string free of `t`. -/
theorem replaceAll_no_occurrence (s t r : List Char) (ht : t ≠ []) (hr : r ≠ [])
    (hdisj : ∀ c ∈ t, c ∉ r) :
    occursWithin t (replaceAll s t r) = false := by
  cases t with
  | nil => exact absurd rfl ht
  | cons c₀ t₀ =>
    unfold replaceAll splitOnSub
    exact occursWithin_joinWith_false _ ht hr hdisj
      (splitOnSubGo_chunks_free c₀ t₀ s.length s le_rfl)

theorem data_nil_eq_empty (s : String) (h : s.data = []) : s = "" :=
  String.ext (h.trans rfl)

/-! ## Claim theorems: token redaction -/

/-- The configuration of C9's counterexample: its token "EDA" is a segment
of the marker "REDACTED" itself. -/
def lavaCfgLeak : LavaConfig :=
  { Token := "EDA", BaseURL := "https://ghe.example", Concurrency := 1,
    BinaryPath := "/usr/bin/lava", CheckImage := "img", ResultsPath := "" }

set_option maxRecDepth 16000 in
/-- C9 counterexample: with the non-empty token "EDA", the logged command
line — every occurrence of the token replaced by "REDACTED" — still contains
the token, because "REDACTED" contains "EDA". -/
theorem token_reappears_in_logged_args_cex :
    occursWithin lavaCfgLeak.Token.data
      (loggedCmd lavaCfgLeak "https://ghe.example/o/r") = true := by
  decide

/-- C9 amended: the logged command line substitutes the marker "REDACTED"
for every occurrence of the token, and consequently never contains the token
whenever the non-empty token shares no character with the marker (a token
overlapping the marker's text can reappear through the substitution). -/
theorem token_never_in_logged_args (cfg : LavaConfig) (repo : String)
    (hne : cfg.Token ≠ "")
    (hdisj : ∀ c ∈ cfg.Token.data, c ∉ "REDACTED".data) :
    occursWithin cfg.Token.data (loggedCmd cfg repo) = false := by
  have hd : cfg.Token.data ≠ [] := fun h => hne (data_nil_eq_empty _ h)
  exact replaceAll_no_occurrence _ _ _ hd (by decide) hdisj

/-- The configuration of C9's witness: a lowercase token disjoint from the
marker's characters. -/
def lavaCfgRedact : LavaConfig :=
  { Token := "secret-token-123", BaseURL := "https://ghe.example",
    Concurrency := 1, BinaryPath := "/usr/bin/lava", CheckImage := "img",
    ResultsPath := "" }

/-- C9's witness: the token "secret-token-123" never appears in the logged
command line. -/
theorem token_never_in_logged_args_witness :
    occursWithin lavaCfgRedact.Token.data
      (loggedCmd lavaCfgRedact "https://ghe.example/o/r") = false :=
  token_never_in_logged_args lavaCfgRedact "https://ghe.example/o/r"
    (by decide) (by decide)

end Reposec
